import Mathlib

/-!
Verification of the phase-aware analysis core of `aba_app.py`.

The embedding models, directly from the source:
* the dataset normalization step (header strip, mandatory `日時` column,
  timestamp coercion and row dropping),
* the segmenter/aggregator (daily bucketing by (date, phase) vs raw rows),
* the effect classifier (first/last distinct phase, phase means,
  percent change, goal-direction thresholds),
* the phase-boundary detection loop used for charting.

Metric values are modelled as rationals; timestamps as natural numbers
(minutes), with the calendar date being the timestamp's date component.
-/

namespace AbaApp

/-- Goal direction chosen by the user (radio button, line 110-113 of the
source): decrease = "減らしたい（問題行動など）", increase = "増やしたい". -/
inductive GoalDirection where
  | decrease
  | increase
deriving DecidableEq, Repr

/-- Verdict category determined by the threshold branches
(lines 157-185 of the source). -/
inductive Category where
  | dramatic_improvement
  | mild_improvement
  | no_improvement
deriving DecidableEq, Repr

/-- The threshold branches of the source (lines 158-185): for decrease,
`percent_change <= -50` is checked first, then `percent_change < 0`,
else the no-improvement branch; for increase, `percent_change >= 50`,
then `percent_change > 0`, else no improvement. -/
def classifyChange (g : GoalDirection) (pc : ℚ) : Category :=
  match g with
  | .decrease =>
      if pc ≤ -50 then .dramatic_improvement
      else if pc < 0 then .mild_improvement
      else .no_improvement
  | .increase =>
      if pc ≥ 50 then .dramatic_improvement
      else if pc > 0 then .mild_improvement
      else .no_improvement

/-- Line 150 of the source:
`percent_change = ((mean_b - mean_a) / mean_a) * 100 if mean_a != 0 else 0`. -/
def percentChange (ma mb : ℚ) : ℚ :=
  if ma ≠ 0 then ((mb - ma) / ma) * 100 else 0

/-- Distinct elements of a list in first-occurrence order.  This is the
semantics of `pandas.Series.unique`, used at line 140 of the source
(`unique_phases = df_plot['フェーズ'].unique()`). -/
def uniqueFirstSeen {α : Type} [DecidableEq α] : List α → List α
  | [] => []
  | a :: rest => a :: uniqueFirstSeen (rest.filter (fun x => x ≠ a))
termination_by l => l.length
decreasing_by
  simp only [List.length_cons]
  exact Nat.lt_succ_of_le (List.length_filter_le _ _)

/-- One plotting row of `df_plot`: the x value (a date under daily
aggregation, a timestamp under raw granularity), the phase label, and the
value of the selected metric column. -/
structure PlotRow where
  x : Nat
  phase : String
  value : ℚ
deriving DecidableEq, Repr

/-- `pandas` arithmetic mean of a list of values (`Series.mean`). -/
def listMean (l : List ℚ) : ℚ := l.sum / (l.length : ℚ)

/-- Lines 147-148 of the source: the mean of the selected metric over the
rows of `df_plot` whose `フェーズ` equals the given label. -/
def phaseMean (rows : List PlotRow) (p : String) : ℚ :=
  listMean ((rows.filter fun r => r.phase = p).map PlotRow.value)

/-- The verdict record assembled by the classification block
(lines 143-185 of the source). -/
structure Verdict where
  phaseA : String
  phaseB : String
  meanA : ℚ
  meanB : ℚ
  pchange : ℚ
  category : Category
deriving DecidableEq, Repr

/-- Lines 140-185 of the source: take the distinct phases of `df_plot` in
first-seen order; if at least two, compare `unique_phases[0]` against
`unique_phases[-1]` by mean, percent change, and the threshold branches;
otherwise no verdict is produced. -/
def effectClassifier (g : GoalDirection) (rows : List PlotRow) : Option Verdict :=
  let ups := uniqueFirstSeen (rows.map PlotRow.phase)
  if 2 ≤ ups.length then
    let pa := ups.headD ""
    let pb := ups.getLastD ""
    let ma := phaseMean rows pa
    let mb := phaseMean rows pb
    let pc := percentChange ma mb
    some ⟨pa, pb, ma, mb, pc, classifyChange g pc⟩
  else none

/-- Modelled on the spec wording "last distinct label seen in time order":
scan the labels in time order, remembering the most recent label that had
not been seen before. -/
def lastNewLabelAux (seen : List String) (cur : Option String) :
    List String → Option String
  | [] => cur
  | a :: rest =>
      if a ∈ seen then lastNewLabelAux seen cur rest
      else lastNewLabelAux (a :: seen) (some a) rest

/-- The last distinct label seen in time order (spec formulation). -/
def lastNewLabel (ps : List String) : Option String := lastNewLabelAux [] none ps

@[simp]
theorem uniqueFirstSeen_nil {α : Type} [DecidableEq α] :
    uniqueFirstSeen ([] : List α) = [] := by
  rw [uniqueFirstSeen]

@[simp]
theorem uniqueFirstSeen_cons {α : Type} [DecidableEq α] (a : α) (l : List α) :
    uniqueFirstSeen (a :: l) = a :: uniqueFirstSeen (l.filter (fun x => x ≠ a)) := by
  rw [uniqueFirstSeen]

theorem mem_uniqueFirstSeen {α : Type} [DecidableEq α] :
    ∀ (l : List α) (x : α), (x ∈ uniqueFirstSeen l ↔ x ∈ l)
  | [], x => by simp [uniqueFirstSeen_nil]
  | a :: rest, x => by
    have ih := mem_uniqueFirstSeen (rest.filter (fun y => y ≠ a)) x
    rw [uniqueFirstSeen_cons]
    simp only [List.mem_cons, ih, List.mem_filter, decide_eq_true_eq]
    constructor
    · rintro (rfl | ⟨hx, _⟩)
      · exact .inl rfl
      · exact .inr hx
    · rintro (rfl | hx)
      · exact .inl rfl
      · by_cases hxa : x = a
        · exact .inl hxa
        · exact .inr ⟨hx, hxa⟩
termination_by l _ => l.length
decreasing_by
  simp only [List.length_cons]
  exact Nat.lt_succ_of_le (List.length_filter_le _ _)

theorem nodup_uniqueFirstSeen {α : Type} [DecidableEq α] :
    ∀ (l : List α), (uniqueFirstSeen l).Nodup
  | [] => by simp [uniqueFirstSeen_nil]
  | a :: rest => by
    rw [uniqueFirstSeen_cons]
    refine List.nodup_cons.mpr ⟨?_, nodup_uniqueFirstSeen _⟩
    intro hmem
    have := (mem_uniqueFirstSeen _ a).mp hmem
    simp at this
termination_by l => l.length
decreasing_by
  simp only [List.length_cons]
  exact Nat.lt_succ_of_le (List.length_filter_le _ _)

theorem head?_uniqueFirstSeen {α : Type} [DecidableEq α] (l : List α) :
    (uniqueFirstSeen l).head? = l.head? := by
  cases l with
  | nil => rw [uniqueFirstSeen_nil]
  | cons a rest => rw [uniqueFirstSeen_cons]; rfl

theorem uniqueFirstSeen_eq_nil {α : Type} [DecidableEq α] (l : List α) :
    uniqueFirstSeen l = [] ↔ l = [] := by
  cases l with
  | nil => simp [uniqueFirstSeen_nil]
  | cons a rest => rw [uniqueFirstSeen_cons]; simp

theorem uniqueFirstSeen_const {α : Type} [DecidableEq α] (c : α) :
    ∀ (l : List α), (∀ x ∈ l, x = c) →
      uniqueFirstSeen l = [] ∨ uniqueFirstSeen l = [c]
  | [], _ => .inl uniqueFirstSeen_nil
  | a :: rest, h => by
    have ha : a = c := h a (.head _)
    right
    rw [uniqueFirstSeen_cons]
    have hfil : rest.filter (fun x => x ≠ a) = [] := by
      rw [List.filter_eq_nil_iff]
      intro b hb
      have hb' := h b (.tail _ hb)
      simp [hb', ha]
    rw [hfil, uniqueFirstSeen_nil, ha]

theorem lastNewLabelAux_filter (a : String) :
    ∀ (ps : List String) (seen : List String) (cur : Option String), a ∈ seen →
      lastNewLabelAux seen cur (ps.filter (fun x => x ≠ a)) = lastNewLabelAux seen cur ps
  | [], _, _, _ => rfl
  | b :: rest, seen, cur, ha => by
    by_cases hba : b = a
    · subst hba
      have : (b :: rest).filter (fun x => x ≠ b) = rest.filter (fun x => x ≠ b) := by
        simp [List.filter_cons]
      rw [this, lastNewLabelAux_filter b rest seen cur ha]
      simp [lastNewLabelAux, ha]
    · have : (b :: rest).filter (fun x => x ≠ a) = b :: rest.filter (fun x => x ≠ a) := by
        simp [List.filter_cons, hba]
      rw [this]
      by_cases hbs : b ∈ seen
      · simp only [lastNewLabelAux, if_pos hbs]
        exact lastNewLabelAux_filter a rest seen cur ha
      · simp only [lastNewLabelAux, if_neg hbs]
        exact lastNewLabelAux_filter a rest (b :: seen) (some b) (List.mem_cons_of_mem _ ha)

theorem lastNewLabelAux_congr :
    ∀ (ps : List String) (seen seen' : List String) (cur : Option String),
      (∀ x ∈ ps, (x ∈ seen ↔ x ∈ seen')) →
      lastNewLabelAux seen cur ps = lastNewLabelAux seen' cur ps
  | [], _, _, _, _ => rfl
  | b :: rest, seen, seen', cur, h => by
    have hb := h b (.head _)
    by_cases hbs : b ∈ seen
    · simp only [lastNewLabelAux, if_pos hbs, if_pos (hb.mp hbs)]
      exact lastNewLabelAux_congr rest seen seen' cur (fun x hx => h x (.tail _ hx))
    · have hbs' : b ∉ seen' := fun hc => hbs (hb.mpr hc)
      simp only [lastNewLabelAux, if_neg hbs, if_neg hbs']
      refine lastNewLabelAux_congr rest (b :: seen) (b :: seen') (some b) (fun x hx => ?_)
      simp only [List.mem_cons]
      rw [h x (.tail _ hx)]

theorem getLast?_cons_of_ne_nil {α : Type} (a : α) (l : List α) (h : l ≠ []) :
    (a :: l).getLast? = l.getLast? := by
  cases l with
  | nil => exact absurd rfl h
  | cons b t => exact List.getLast?_cons_cons

/-- The last element of the first-seen dedup list is exactly the last
distinct label seen in time order. -/
theorem getLast?_uniqueFirstSeen :
    ∀ (ps : List String), (uniqueFirstSeen ps).getLast? = lastNewLabel ps
  | [] => by rw [uniqueFirstSeen_nil]; rfl
  | a :: rest => by
    have hrhs : lastNewLabel (a :: rest) =
        lastNewLabelAux [] (some a) (rest.filter (fun x => x ≠ a)) := by
      unfold lastNewLabel
      simp only [lastNewLabelAux, List.not_mem_nil, if_false]
      rw [← lastNewLabelAux_filter a rest [a] (some a) (List.mem_singleton.mpr rfl)]
      exact lastNewLabelAux_congr _ [a] [] (some a) (fun x hx => by
        have hxa : x ≠ a := by simpa using (List.mem_filter.mp hx).2
        simp [hxa])
    rw [hrhs, uniqueFirstSeen_cons]
    cases hfil : rest.filter (fun x => x ≠ a) with
    | nil => simp [uniqueFirstSeen_nil, lastNewLabelAux]
    | cons b t =>
      have hne : uniqueFirstSeen (b :: t) ≠ [] := by
        rw [uniqueFirstSeen_cons]
        simp
      rw [getLast?_cons_of_ne_nil _ _ hne, getLast?_uniqueFirstSeen (b :: t)]
      show lastNewLabelAux [] none (b :: t) = lastNewLabelAux [] (some a) (b :: t)
      simp [lastNewLabelAux]
termination_by ps => ps.length
decreasing_by
  rw [← hfil]
  simp only [List.length_cons]
  exact Nat.lt_succ_of_le (List.length_filter_le _ _)

/-- Lines 205-209 of the source: starting at index 1 of the sorted rows,
the loop looks for the first row whose `フェーズ` differs from the
previous row's and breaks there; `none` when no row differs.  The counter
`i` carries the index of the first element of the remaining list. -/
def firstChangeIdxAux : List String → Nat → Option Nat
  | a :: b :: rest, i =>
      if b ≠ a then some (i + 1) else firstChangeIdxAux (b :: rest) (i + 1)
  | _, _ => none

/-- The single change index found by the loop of lines 205-209. -/
def firstChangeIdx (ps : List String) : Option Nat := firstChangeIdxAux ps 0

/-- The row indices the source decorates as a phase boundary: at most the
one index at which the detection loop broke. -/
def codeBoundaries (rows : List PlotRow) : List Nat :=
  (firstChangeIdx (rows.map PlotRow.phase)).toList

/-- Spec formulation of boundaries: every index whose phase differs from
the immediately preceding row's phase; the first row is never one. -/
def allChangeIdxsAux : List String → Nat → List Nat
  | a :: b :: rest, i =>
      (if b ≠ a then [i + 1] else []) ++ allChangeIdxsAux (b :: rest) (i + 1)
  | _, _ => []

/-- All boundary indices of a row sequence, per the spec's definition. -/
def specBoundaries (rows : List PlotRow) : List Nat :=
  allChangeIdxsAux (rows.map PlotRow.phase) 0

theorem firstChangeIdxAux_eq_head :
    ∀ (l : List String) (i : Nat),
      firstChangeIdxAux l i = (allChangeIdxsAux l i).head?
  | [], _ => rfl
  | [_], _ => rfl
  | a :: b :: rest, i => by
    by_cases hba : b = a
    · simp only [firstChangeIdxAux, allChangeIdxsAux, hba]
      simp only [ne_eq, not_true_eq_false, if_false, ite_false, List.nil_append]
      exact firstChangeIdxAux_eq_head (a :: rest) (i + 1)
    · simp [firstChangeIdxAux, allChangeIdxsAux, hba]

theorem mem_allChangeIdxsAux :
    ∀ (l : List String) (i j : Nat),
      (j ∈ allChangeIdxsAux l i ↔
        ∃ k, 1 ≤ k ∧ k < l.length ∧ j = i + k ∧ l[k]? ≠ l[k - 1]?)
  | [], i, j => by
    simp only [allChangeIdxsAux, List.not_mem_nil, false_iff, not_exists]
    intro k
    simp
  | [_], i, j => by
    simp only [allChangeIdxsAux, List.not_mem_nil, false_iff, not_exists]
    intro k
    simp only [List.length_singleton]
    intro ⟨h1, h2, _⟩
    omega
  | a :: b :: rest, i, j => by
    have ih := mem_allChangeIdxsAux (b :: rest) (i + 1) j
    simp only [allChangeIdxsAux, List.mem_append] at *
    constructor
    · rintro (hin | hin)
      · by_cases hba : b = a
        · simp [hba] at hin
        · simp only [ne_eq, hba, not_false_eq_true, if_true, ite_true,
            List.mem_singleton] at hin
          subst hin
          refine ⟨1, le_refl 1, by simp, by omega, ?_⟩
          simp [hba]
      · obtain ⟨k, hk1, hklen, hj, hne⟩ := ih.mp hin
        obtain ⟨m, rfl⟩ : ∃ m, k = m + 1 := ⟨k - 1, by omega⟩
        refine ⟨m + 2, by omega, ?_, by omega, ?_⟩
        · simp only [List.length_cons] at hklen ⊢
          omega
        · simpa using hne
    · rintro ⟨k, hk1, hklen, hj, hne⟩
      obtain ⟨m, rfl⟩ : ∃ m, k = m + 1 := ⟨k - 1, by omega⟩
      cases m with
      | zero =>
        left
        simp only [List.getElem?_cons_succ, List.getElem?_cons_zero,
          Nat.sub_self] at hne
        have hba : b ≠ a := by
          intro hc
          exact hne (by rw [hc])
        simp only [ne_eq, hba, not_false_eq_true, if_true, ite_true,
          List.mem_singleton]
        omega
      | succ m' =>
        right
        refine ih.mpr ⟨m' + 1, by omega, ?_, by omega, ?_⟩
        · simp only [List.length_cons] at hklen ⊢
          omega
        · simpa using hne

/-- Counterexample to C4: with phases `A`, `B`, `A` the spec demands a
boundary at both transitions (indices 1 and 2), but the detection loop of
the source breaks after the first transition and marks only index 1;
the re-appearance of `A` at index 2 is not marked. -/
theorem C4_counterexample :
    specBoundaries [⟨1, "A", 1⟩, ⟨2, "B", 2⟩, ⟨3, "A", 3⟩] = [1, 2] ∧
    codeBoundaries [⟨1, "A", 1⟩, ⟨2, "B", 2⟩, ⟨3, "A", 3⟩] = [1] ∧
    (2 : Nat) ∉ codeBoundaries [⟨1, "A", 1⟩, ⟨2, "B", 2⟩, ⟨3, "A", 3⟩] := by
  refine ⟨?_, ?_, ?_⟩ <;> decide

/-- C4 amended: the code marks a boundary only at the first row whose
phase differs from the immediately preceding row's phase — the head of
the full boundary list — and never at the first row; later transitions,
including re-appearances of an earlier phase, are not marked. -/
theorem C4_first_boundary_only (rows : List PlotRow) :
    codeBoundaries rows = (specBoundaries rows).head?.toList ∧
    (∀ j : Nat, j ∈ specBoundaries rows ↔
      1 ≤ j ∧ j < rows.length ∧
        (rows.map PlotRow.phase)[j]? ≠ (rows.map PlotRow.phase)[j - 1]?) := by
  constructor
  · unfold codeBoundaries specBoundaries firstChangeIdx
    rw [firstChangeIdxAux_eq_head]
  · intro j
    unfold specBoundaries
    rw [mem_allChangeIdxsAux (rows.map PlotRow.phase) 0 j]
    constructor
    · rintro ⟨k, hk1, hklen, hj, hne⟩
      subst hj
      simp only [List.length_map] at hklen
      exact ⟨by omega, by simpa using hklen, by simpa using hne⟩
    · rintro ⟨h1, h2, hne⟩
      exact ⟨j, h1, by simpa using h2, by omega, hne⟩

/-- One raw uploaded row.  The `ts` field is the timestamp cell after
`pd.to_datetime(df['日時'], errors='coerce')` (line 92 of the source):
`none` models `NaT`, i.e. a timestamp that failed to parse.  The other
cells are carried through opaquely. -/
structure RawRow where
  ts : Option Nat
  payload : String
deriving DecidableEq, Repr

/-- The result of the normalization step: the surviving rows and the
user-facing messages the step emitted. -/
structure Normalized where
  rows : List RawRow
  messages : List String
deriving DecidableEq, Repr

/-- Whitespace characters removed by `pandas.Index.str.strip()`. -/
def isSpaceChar (c : Char) : Bool := c = ' ' || c = '\t' || c = '\n' || c = '\r'

/-- `df.columns.str.strip()` (line 89 of the source): remove leading and
trailing whitespace from a header cell. -/
def stripHeader (s : String) : String :=
  ⟨((s.data.dropWhile isSpaceChar).reverse.dropWhile isSpaceChar).reverse⟩

/-- Line 96 of the source: the fixed text passed to `st.error` when the
`日時` column is missing. -/
def missingColumnMsg : String :=
  "❌ '日時'列が見つかりません。マニュアルを確認してください。"

/-- Lines 88-97 of the source: strip whitespace from the header names
(`df.columns.str.strip()`); if a `日時` column exists, coerce the
timestamps and drop every row whose timestamp failed to parse
(`dropna(subset=['日時'])`) — no message of any kind is emitted about the
dropped rows; otherwise show the fixed error message and stop the run. -/
def normalize (cols : List String) (raw : List RawRow) : Except String Normalized :=
  let stripped := cols.map stripHeader
  if "日時" ∈ stripped then
    Except.ok ⟨raw.filter (fun r => r.ts.isSome), []⟩
  else
    Except.error missingColumnMsg

/-- Counterexample to C5: on a 5-row input whose second row has an
unparsable timestamp, normalization does return 4 rows, but it emits no
message at all, so no drop count of 1 (nor any drop count) is reported to
the caller. -/
theorem C5_counterexample :
    (normalize ["日時"]
      [⟨some 1, "r1"⟩, ⟨none, "r2"⟩, ⟨some 3, "r3"⟩, ⟨some 4, "r4"⟩,
        ⟨some 5, "r5"⟩]).toOption.map Normalized.messages = some [] ∧
    (normalize ["日時"]
      [⟨some 1, "r1"⟩, ⟨none, "r2"⟩, ⟨some 3, "r3"⟩, ⟨some 4, "r4"⟩,
        ⟨some 5, "r5"⟩]).toOption.map (fun n => n.rows.length) = some 4 := by
  constructor <;> rfl

/-- C5 amended: each row whose timestamp fails to parse is dropped from
the returned sequence and every other row is kept, but the count of
dropped rows is neither computed nor reported: the step emits no
messages. -/
theorem C5_dropped_rows_silent (cols : List String) (raw : List RawRow)
    (h : "日時" ∈ cols.map stripHeader) :
    ∃ n, normalize cols raw = .ok n ∧
      n.rows = raw.filter (fun r => r.ts.isSome) ∧
      (∀ r ∈ raw, r.ts ≠ none → r ∈ n.rows) ∧
      (∀ r ∈ n.rows, r ∈ raw ∧ r.ts ≠ none) ∧
      n.messages = [] := by
  refine ⟨⟨raw.filter (fun r => r.ts.isSome), []⟩, ?_, rfl, ?_, ?_, rfl⟩
  · unfold normalize
    rw [if_pos h]
  · intro r hr hts
    refine List.mem_filter.mpr ⟨hr, ?_⟩
    cases hts' : r.ts with
    | none => exact absurd hts' hts
    | some t => simp [Option.isSome, hts']
  · intro r hr
    obtain ⟨hmem, hsome⟩ := List.mem_filter.mp hr
    refine ⟨hmem, ?_⟩
    intro hc
    rw [hc] at hsome
    simp at hsome

/-- Witness for C5 amended, on the 5-row input of the spec's test. -/
theorem C5_dropped_rows_silent_witness :
    ∃ n, normalize ["日時"]
        [⟨some 1, "r1"⟩, ⟨none, "r2"⟩, ⟨some 3, "r3"⟩, ⟨some 4, "r4"⟩,
          ⟨some 5, "r5"⟩] = .ok n ∧
      n.rows = [⟨some 1, "r1"⟩, ⟨none, "r2"⟩, ⟨some 3, "r3"⟩, ⟨some 4, "r4"⟩,
        (⟨some 5, "r5"⟩ : RawRow)].filter (fun r => r.ts.isSome) ∧
      (∀ r ∈ [⟨some 1, "r1"⟩, ⟨none, "r2"⟩, ⟨some 3, "r3"⟩, ⟨some 4, "r4"⟩,
        (⟨some 5, "r5"⟩ : RawRow)], r.ts ≠ none → r ∈ n.rows) ∧
      (∀ r ∈ n.rows, r ∈ [⟨some 1, "r1"⟩, ⟨none, "r2"⟩, ⟨some 3, "r3"⟩,
        ⟨some 4, "r4"⟩, (⟨some 5, "r5"⟩ : RawRow)] ∧ r.ts ≠ none) ∧
      n.messages = [] :=
  C5_dropped_rows_silent ["日時"]
    [⟨some 1, "r1"⟩, ⟨none, "r2"⟩, ⟨some 3, "r3"⟩, ⟨some 4, "r4"⟩,
      ⟨some 5, "r5"⟩] (by decide)

/-- Counterexample to C6: two uploads with different column sets, neither
containing `日時`, fail with the identical fixed error message — so the
error cannot include the set of columns actually found. -/
theorem C6_counterexample :
    normalize ["ID", "頻度"] [] = .error missingColumnMsg ∧
    normalize ["強度"] [] = .error missingColumnMsg := by
  constructor <;> rfl

/-- C6 amended: when the trimmed header lacks the mandatory `日時` column,
normalization fails the run with a fixed error message that names the
missing column but does not include the columns actually found. -/
theorem C6_missing_column (cols : List String) (raw : List RawRow)
    (h : "日時" ∉ cols.map stripHeader) :
    normalize cols raw = .error missingColumnMsg ∧
    missingColumnMsg =
      "❌ '" ++ "日時" ++ "'列が見つかりません。マニュアルを確認してください。" := by
  constructor
  · unfold normalize
    rw [if_neg h]
  · rfl

/-- Witness for C6 amended on a header with whitespace and no `日時`. -/
theorem C6_missing_column_witness :
    normalize [" ID ", "強度"] [⟨some 1, "r1"⟩] = .error missingColumnMsg ∧
    missingColumnMsg =
      "❌ '" ++ "日時" ++ "'列が見つかりません。マニュアルを確認してください。" :=
  C6_missing_column [" ID ", "強度"] [⟨some 1, "r1"⟩] (by decide)

/-- One normalized event surviving the behavior filter (line 118 of the
source): its parsed timestamp in minutes, its phase label, and the value
of the selected metric column.  The phase field is meaningful only when
the uploaded file has a `フェーズ` column. -/
structure Event where
  ts : Nat
  phase : String
  value : ℚ
deriving DecidableEq, Repr

/-- `df['日時'].dt.date` (line 94 of the source): the calendar-date
component of the timestamp, with no timezone conversion. -/
def Event.date (e : Event) : Nat := e.ts / 1440

/-- The selectable metric columns (line 137 of the source). -/
inductive Metric where
  | frequency
  | duration
  | intensity
deriving DecidableEq, Repr

/-- The aggregation rules of lines 122-125 of the source: `'sum'` for
`頻度` and `持続時間(分)`, `'mean'` for `強度`. -/
def Metric.agg : Metric → List ℚ → ℚ
  | .frequency, l => l.sum
  | .duration, l => l.sum
  | .intensity, l => listMean l

/-- Order on (date, phase) group keys produced by
`groupby(['日付', 'フェーズ'])` (line 127 of the source): groups come out
sorted by date, ties broken by phase label; the trailing
`sort_values('日付')` keeps this order since it is already sorted by
date. -/
def keyLE (a b : Nat × String) : Prop := a.1 < b.1 ∨ (a.1 = b.1 ∧ a.2 ≤ b.2)

instance : DecidableRel keyLE := fun a b => by
  unfold keyLE
  infer_instance

instance : IsTotal (Nat × String) keyLE := ⟨by
  intro a b
  rcases Nat.lt_trichotomy a.1 b.1 with h | h | h
  · exact .inl (.inl h)
  · rcases le_total a.2 b.2 with h2 | h2
    · exact .inl (.inr ⟨h, h2⟩)
    · exact .inr (.inr ⟨h.symm, h2⟩)
  · exact .inr (.inl h)⟩

instance : IsTrans (Nat × String) keyLE := ⟨by
  intro a b c hab hbc
  rcases hab with h | ⟨h1, h2⟩ <;> rcases hbc with h' | ⟨h1', h2'⟩
  · exact .inl (lt_trans h h')
  · exact .inl (by omega)
  · exact .inl (by omega)
  · exact .inr ⟨h1.trans h1', le_trans h2 h2'⟩⟩

/-- Lines 121-127 of the source: group the filtered events by (date,
phase), aggregate the selected metric per group, and emit one output row
per group in group-key order. -/
def dailyAgg (m : Metric) (evs : List Event) : List PlotRow :=
  (List.insertionSort keyLE (uniqueFirstSeen (evs.map (fun e => (e.date, e.phase))))).map
    (fun k => ⟨k.1, k.2,
      m.agg ((evs.filter (fun e => e.date = k.1 ∧ e.phase = k.2)).map Event.value)⟩)

/-- Order on events by timestamp, for `sort_values('日時')` (line 130). -/
def tsLE (a b : Event) : Prop := a.ts ≤ b.ts

instance : DecidableRel tsLE := fun a b => by
  unfold tsLE
  infer_instance

instance : IsTotal Event tsLE := ⟨fun a b => le_total a.ts b.ts⟩

instance : IsTrans Event tsLE := ⟨fun _ _ _ h h' => le_trans h h'⟩

/-- Line 130 of the source: raw granularity, one plotting row per
surviving event in timestamp order, each carrying its own value. -/
def rawRows (evs : List Event) : List PlotRow :=
  (List.insertionSort tsLE evs).map (fun e => ⟨e.ts, e.phase, e.value⟩)

theorem dailyAgg_keys (m : Metric) (evs : List Event) :
    (dailyAgg m evs).map (fun r => (r.x, r.phase)) =
      List.insertionSort keyLE (uniqueFirstSeen (evs.map (fun e => (e.date, e.phase)))) := by
  unfold dailyAgg
  rw [List.map_map]
  conv_rhs => rw [← List.map_id
    (List.insertionSort keyLE (uniqueFirstSeen (evs.map (fun e => (e.date, e.phase)))))]
  rfl

/-- The granularity switch (checkbox at line 115 of the source). -/
inductive Granularity where
  | raw
  | daily
deriving DecidableEq, Repr

/-- What the analysis block delivers per run: the plotting rows and the
verdict, when one was computed. -/
structure AnalysisOutput where
  plot : List PlotRow
  verdict : Option Verdict
deriving DecidableEq, Repr

/-- Lines 121-131 of the source: under daily aggregation the
`groupby(['日付', 'フェーズ'])` at line 127 runs unconditionally, so a
dataset without a `フェーズ` column raises a `KeyError`, which the outer
handler at line 234 reports as an error for the whole run; under raw
granularity the rows are only sorted by timestamp. -/
def buildPlot (g : Granularity) (hasPhaseCol : Bool) (m : Metric) (evs : List Event) :
    Except String (List PlotRow) :=
  match g with
  | .daily =>
      if hasPhaseCol then .ok (dailyAgg m evs)
      else .error "KeyError: 'フェーズ'"
  | .raw => .ok (rawRows evs)

/-- Lines 121-195 of the source: build the plotting rows, then run the
verdict block only when a `フェーズ` column exists (the gate at line
139). -/
def analyze (g : Granularity) (gd : GoalDirection) (hasPhaseCol : Bool) (m : Metric)
    (evs : List Event) : Except String AnalysisOutput :=
  match buildPlot g hasPhaseCol m evs with
  | .error e => .error e
  | .ok plot => .ok ⟨plot, if hasPhaseCol then effectClassifier gd plot else none⟩

end AbaApp

namespace AbaApp

/-- C1: the threshold table, with the more restrictive threshold checked
first: for goal decrease, `pc ≤ -50` is dramatic improvement,
`-50 < pc < 0` mild, `pc ≥ 0` none; for goal increase, `pc ≥ 50` dramatic,
`0 < pc < 50` mild, `pc ≤ 0` none. -/
theorem C1_threshold_table (pc : ℚ) :
    (pc ≤ -50 → classifyChange .decrease pc = .dramatic_improvement) ∧
    (-50 < pc ∧ pc < 0 → classifyChange .decrease pc = .mild_improvement) ∧
    (0 ≤ pc → classifyChange .decrease pc = .no_improvement) ∧
    (50 ≤ pc → classifyChange .increase pc = .dramatic_improvement) ∧
    (0 < pc ∧ pc < 50 → classifyChange .increase pc = .mild_improvement) ∧
    (pc ≤ 0 → classifyChange .increase pc = .no_improvement) := by
  refine ⟨fun h => ?_, fun h => ?_, fun h => ?_, fun h => ?_, fun h => ?_, fun h => ?_⟩
  · simp only [classifyChange]
    rw [if_pos h]
  · obtain ⟨h1, h2⟩ := h
    simp only [classifyChange]
    rw [if_neg (by linarith), if_pos h2]
  · simp only [classifyChange]
    rw [if_neg (by linarith), if_neg (by linarith)]
  · simp only [classifyChange]
    rw [if_pos h]
  · obtain ⟨h1, h2⟩ := h
    simp only [classifyChange]
    rw [if_neg (by simp only [ge_iff_le, not_le]; linarith), if_pos h1]
  · simp only [classifyChange]
    rw [if_neg (by simp only [ge_iff_le, not_le]; linarith),
      if_neg (by simp only [gt_iff_lt, not_lt]; linarith)]

/-- Witness for C1 at concrete percent changes. -/
theorem C1_threshold_table_witness :
    classifyChange .decrease (-60) = .dramatic_improvement ∧
    classifyChange .decrease (-10) = .mild_improvement ∧
    classifyChange .decrease 5 = .no_improvement ∧
    classifyChange .increase 60 = .dramatic_improvement ∧
    classifyChange .increase 10 = .mild_improvement ∧
    classifyChange .increase (-5) = .no_improvement :=
  ⟨(C1_threshold_table (-60)).1 (by norm_num),
   (C1_threshold_table (-10)).2.1 ⟨by norm_num, by norm_num⟩,
   (C1_threshold_table 5).2.2.1 (by norm_num),
   (C1_threshold_table 60).2.2.2.1 (by norm_num),
   (C1_threshold_table 10).2.2.2.2.1 ⟨by norm_num, by norm_num⟩,
   (C1_threshold_table (-5)).2.2.2.2.2 (by norm_num)⟩

/-- C2: percent change is `(mb - ma) / ma * 100` for nonzero baseline mean
and `0` when both means are zero; baseline 10 and outcome 5 give `-50`,
classified as dramatic improvement under goal decrease. -/
theorem C2_percent_change (ma mb : ℚ) :
    (ma ≠ 0 → percentChange ma mb = ((mb - ma) / ma) * 100) ∧
    (ma = 0 → mb = 0 → percentChange ma mb = 0) ∧
    percentChange 10 5 = -50 ∧
    classifyChange .decrease (percentChange 10 5) = .dramatic_improvement := by
  refine ⟨fun h => ?_, fun h _ => ?_, by norm_num [percentChange], ?_⟩
  · simp [percentChange, h]
  · simp [percentChange, h]
  · norm_num [percentChange, classifyChange]

/-- Witness for C2 at concrete means. -/
theorem C2_percent_change_witness :
    percentChange 10 5 = ((5 - 10) / 10 : ℚ) * 100 ∧ percentChange 0 0 = 0 :=
  ⟨(C2_percent_change 10 5).1 (by norm_num), (C2_percent_change 0 0).2.1 rfl rfl⟩

/-- C10: a zero baseline mean with a nonzero outcome mean yields percent
change 0, classified as no improvement under either goal direction. -/
theorem C10_zero_baseline_sentinel (g : GoalDirection) (mb : ℚ) (_h : mb ≠ 0) :
    percentChange 0 mb = 0 ∧ classifyChange g (percentChange 0 mb) = .no_improvement := by
  have hpc : percentChange 0 mb = 0 := by simp [percentChange]
  refine ⟨hpc, ?_⟩
  rw [hpc]
  cases g <;> norm_num [classifyChange]

/-- Witness for C10: outcome moved in the desired direction in both cases. -/
theorem C10_zero_baseline_sentinel_witness :
    (percentChange 0 (-3) = 0 ∧ classifyChange .decrease (percentChange 0 (-3)) = .no_improvement) ∧
    (percentChange 0 3 = 0 ∧ classifyChange .increase (percentChange 0 3) = .no_improvement) :=
  ⟨C10_zero_baseline_sentinel .decrease (-3) (by norm_num),
   C10_zero_baseline_sentinel .increase 3 (by norm_num)⟩

/-- C3: on timestamp-sorted plotting rows with at least two distinct
phases, the classifier produces a verdict whose baseline phase is the
first phase label in time order, whose outcome phase is the last distinct
label seen in time order, and whose means are the arithmetic means of the
metric over exactly the rows carrying the respective phase. -/
theorem C3_baseline_outcome_phases (g : GoalDirection) (rows : List PlotRow)
    (_hsorted : (rows.map PlotRow.x).Sorted (· ≤ ·))
    (h2 : 2 ≤ (uniqueFirstSeen (rows.map PlotRow.phase)).length) :
    ∃ v, effectClassifier g rows = some v ∧
      some v.phaseA = (rows.map PlotRow.phase).head? ∧
      some v.phaseB = lastNewLabel (rows.map PlotRow.phase) ∧
      v.meanA = ((rows.filter fun r => r.phase = v.phaseA).map PlotRow.value).sum /
        (((rows.filter fun r => r.phase = v.phaseA).map PlotRow.value).length : ℚ) ∧
      v.meanB = ((rows.filter fun r => r.phase = v.phaseB).map PlotRow.value).sum /
        (((rows.filter fun r => r.phase = v.phaseB).map PlotRow.value).length : ℚ) := by
  have hcls : effectClassifier g rows =
      some ⟨(uniqueFirstSeen (rows.map PlotRow.phase)).headD "",
        (uniqueFirstSeen (rows.map PlotRow.phase)).getLastD "",
        phaseMean rows ((uniqueFirstSeen (rows.map PlotRow.phase)).headD ""),
        phaseMean rows ((uniqueFirstSeen (rows.map PlotRow.phase)).getLastD ""),
        percentChange (phaseMean rows ((uniqueFirstSeen (rows.map PlotRow.phase)).headD ""))
          (phaseMean rows ((uniqueFirstSeen (rows.map PlotRow.phase)).getLastD "")),
        classifyChange g
          (percentChange (phaseMean rows ((uniqueFirstSeen (rows.map PlotRow.phase)).headD ""))
            (phaseMean rows ((uniqueFirstSeen (rows.map PlotRow.phase)).getLastD "")))⟩ := by
    unfold effectClassifier
    rw [if_pos h2]
  have hupne : uniqueFirstSeen (rows.map PlotRow.phase) ≠ [] := by
    intro hc
    rw [hc] at h2
    simp at h2
  refine ⟨_, hcls, ?_, ?_, ?_, ?_⟩
  · show some ((uniqueFirstSeen (rows.map PlotRow.phase)).headD "") =
      (rows.map PlotRow.phase).head?
    rw [← head?_uniqueFirstSeen]
    cases hu : uniqueFirstSeen (rows.map PlotRow.phase) with
    | nil => exact absurd hu hupne
    | cons a t => rfl
  · show some ((uniqueFirstSeen (rows.map PlotRow.phase)).getLastD "") =
      lastNewLabel (rows.map PlotRow.phase)
    rw [← getLast?_uniqueFirstSeen]
    cases hu : uniqueFirstSeen (rows.map PlotRow.phase) with
    | nil => exact absurd hu hupne
    | cons a t =>
      rw [List.getLastD_eq_getLast?, List.getLast?_eq_getLast (a :: t) (by simp)]
      rfl
  · rfl
  · rfl

/-- Witness for C3 on two sorted rows of distinct phases. -/
theorem C3_baseline_outcome_phases_witness :
    ∃ v, effectClassifier .decrease [⟨1, "B", 10⟩, ⟨2, "T", 5⟩] = some v ∧
      some v.phaseA = ([⟨1, "B", 10⟩, ⟨2, "T", 5⟩].map PlotRow.phase).head? ∧
      some v.phaseB = lastNewLabel ([⟨1, "B", 10⟩, ⟨2, "T", 5⟩].map PlotRow.phase) ∧
      v.meanA = (([⟨1, "B", 10⟩, ⟨2, "T", 5⟩].filter fun r => r.phase = v.phaseA).map
          PlotRow.value).sum /
        ((([⟨1, "B", 10⟩, ⟨2, "T", 5⟩].filter fun r => r.phase = v.phaseA).map
          PlotRow.value).length : ℚ) ∧
      v.meanB = (([⟨1, "B", 10⟩, ⟨2, "T", 5⟩].filter fun r => r.phase = v.phaseB).map
          PlotRow.value).sum /
        ((([⟨1, "B", 10⟩, ⟨2, "T", 5⟩].filter fun r => r.phase = v.phaseB).map
          PlotRow.value).length : ℚ) :=
  C3_baseline_outcome_phases .decrease [⟨1, "B", 10⟩, ⟨2, "T", 5⟩]
    (by decide) (by simp)

/-- C9: with fewer than two distinct phase labels the classifier yields no
verdict, and in particular an all-`"A"`-phase dataset yields none. -/
theorem C9_insufficient_phases (g : GoalDirection) (rows : List PlotRow) :
    ((rows.map PlotRow.phase).toFinset.card < 2 → effectClassifier g rows = none) ∧
    ((∀ r ∈ rows, r.phase = "A") → effectClassifier g rows = none) := by
  have hcard : (rows.map PlotRow.phase).toFinset.card =
      (uniqueFirstSeen (rows.map PlotRow.phase)).length := by
    rw [← List.toFinset_card_of_nodup (nodup_uniqueFirstSeen (rows.map PlotRow.phase))]
    congr 1
    ext x
    simp [List.mem_toFinset, mem_uniqueFirstSeen]
  constructor
  · intro h
    unfold effectClassifier
    rw [if_neg]
    omega
  · intro h
    have hall : ∀ x ∈ rows.map PlotRow.phase, x = "A" := by
      intro x hx
      obtain ⟨r, hr, rfl⟩ := List.mem_map.mp hx
      exact h r hr
    have := uniqueFirstSeen_const "A" (rows.map PlotRow.phase) hall
    unfold effectClassifier
    rw [if_neg]
    rcases this with h1 | h1 <;> rw [h1] <;> simp

/-- Witness for C9: a two-row single-phase dataset with a falling trend. -/
theorem C9_insufficient_phases_witness :
    effectClassifier .decrease [⟨1, "A", 9⟩, ⟨2, "A", 1⟩] = none :=
  (C9_insufficient_phases .decrease [⟨1, "A", 9⟩, ⟨2, "A", 1⟩]).2 (by decide)

/-- C7: daily aggregation yields exactly one row per (date, phase) pair
present in the filtered events — no duplicate pairs, a pair appears iff
some event carries it — sorted by date ascending, aggregating the metric
with sum for frequency and duration and arithmetic mean for intensity;
raw granularity yields one row per surviving event sorted by timestamp
ascending, each carrying its own value, with no aggregation. -/
theorem C7_aggregation (m : Metric) (evs : List Event) :
    ((dailyAgg m evs).map (fun r => (r.x, r.phase))).Nodup ∧
    (∀ d p, ((d, p) ∈ (dailyAgg m evs).map (fun r => (r.x, r.phase)) ↔
      ∃ e ∈ evs, e.date = d ∧ e.phase = p)) ∧
    ((dailyAgg m evs).map PlotRow.x).Sorted (· ≤ ·) ∧
    (∀ r ∈ dailyAgg .frequency evs,
      r.value = ((evs.filter (fun e => e.date = r.x ∧ e.phase = r.phase)).map
        Event.value).sum) ∧
    (∀ r ∈ dailyAgg .duration evs,
      r.value = ((evs.filter (fun e => e.date = r.x ∧ e.phase = r.phase)).map
        Event.value).sum) ∧
    (∀ r ∈ dailyAgg .intensity evs,
      r.value = ((evs.filter (fun e => e.date = r.x ∧ e.phase = r.phase)).map
          Event.value).sum /
        (((evs.filter (fun e => e.date = r.x ∧ e.phase = r.phase)).map
          Event.value).length : ℚ)) ∧
    List.Perm (rawRows evs) (evs.map (fun e => ⟨e.ts, e.phase, e.value⟩)) ∧
    ((rawRows evs).map PlotRow.x).Sorted (· ≤ ·) := by
  refine ⟨?_, ?_, ?_, ?_, ?_, ?_, ?_, ?_⟩
  · rw [dailyAgg_keys]
    exact (List.perm_insertionSort keyLE _).nodup_iff.mpr (nodup_uniqueFirstSeen _)
  · intro d p
    rw [dailyAgg_keys, List.mem_insertionSort, mem_uniqueFirstSeen]
    simp only [List.mem_map, Prod.mk.injEq]
  · have hs := List.sorted_insertionSort keyLE
      (uniqueFirstSeen (evs.map (fun e => (e.date, e.phase))))
    unfold List.Sorted at hs ⊢
    unfold dailyAgg
    rw [List.map_map, List.pairwise_map]
    exact hs.imp (fun hab => by
      rcases hab with h | ⟨h1, _⟩
      · exact le_of_lt h
      · exact le_of_eq h1)
  · intro r hr
    obtain ⟨k, _, rfl⟩ := List.mem_map.mp hr
    rfl
  · intro r hr
    obtain ⟨k, _, rfl⟩ := List.mem_map.mp hr
    rfl
  · intro r hr
    obtain ⟨k, _, rfl⟩ := List.mem_map.mp hr
    rfl
  · exact (List.perm_insertionSort tsLE evs).map
      (fun e => (⟨e.ts, e.phase, e.value⟩ : PlotRow))
  · have hs := List.sorted_insertionSort tsLE evs
    unfold List.Sorted at hs ⊢
    unfold rawRows
    rw [List.map_map, List.pairwise_map]
    exact hs

/-- Witness for C7: on a concrete two-event set spanning two days, the
pair (date 1, phase B) is one of the daily aggregation's output keys. -/
theorem C7_aggregation_witness :
    (1, "B") ∈ (dailyAgg .frequency [⟨0, "A", 2⟩, ⟨1500, "B", 3⟩]).map
      (fun r => (r.x, r.phase)) :=
  ((C7_aggregation .frequency [⟨0, "A", 2⟩, ⟨1500, "B", 3⟩]).2.1 1 "B").mpr
    ⟨⟨1500, "B", 3⟩, by decide, by decide, rfl⟩

/-- Counterexample to C8: a dataset without a `フェーズ` column under
daily granularity does not succeed — the unconditional groupby on the
phase column raises a `KeyError` and the whole analysis run fails. -/
theorem C8_counterexample :
    analyze .daily .decrease false .frequency [⟨0, "A", 1⟩] =
      .error "KeyError: 'フェーズ'" := by
  rfl

/-- C8 amended: when the phase column is absent the effect classifier is
indeed skipped and never reported as an error, and under raw granularity
the rest of the analysis still succeeds with the plotting rows; but under
daily granularity the aggregation itself fails with a `KeyError` instead
of succeeding. -/
theorem C8_phase_absent (gd : GoalDirection) (m : Metric) (evs : List Event) :
    analyze .raw gd false m evs = .ok ⟨rawRows evs, none⟩ ∧
    analyze .daily gd false m evs = .error "KeyError: 'フェーズ'" := by
  constructor <;> rfl

end AbaApp
